import Mathlib

/-!
Verification of the dejavu audio-fingerprinting repository.

This file shallowly embeds the code that the claims are about:

* `src/dejavu/logic/decoder.py` — `unique_bytes_hash`, `read_from_buffer`
  (raw-PCM branch), together with the pydub `AudioSegment` operations the
  decoder uses (`from_raw`, millisecond slicing, `raw_data`, `channels`)
  and numpy's `frombuffer(..., int16)`;
* `src/dejavu/logic/recognizer/buffer_recognizer.py` —
  `BufferRecognizer.recognize_buffer` / `recognize`, including the arity of
  the Python call `decoder.read_from_buffer(content, self.dejavu.limit)`;
* `src/dejavu/database_handler/cockroach_database.py` — the SQL schema of
  the songs and fingerprints tables and the data manipulation statements
  (`INSERT_FINGERPRINT ... ON CONFLICT DO NOTHING`, `SELECT_MULTIPLE`,
  `DELETE_SONGS`, `DELETE_UNFINGERPRINTED`, `UPDATE_SONG_FINGERPRINTED`,
  `INSERT_SONG`), modelled as operations on an explicit database state.

Machine integers are modelled as `Nat`/`Int` (no overflow is relevant for
the quantities involved), byte strings as `List UInt8`, fallible code as
`Except`.
-/

/-! ## Python-level error values -/

/-- Errors raised by the Python code paths that the embedding models. -/
inductive PyError where
  /-- Python `TypeError`, e.g. a call that omits required positional
  arguments. -/
  | typeError
  /-- numpy `ValueError`, e.g. `np.frombuffer` on a buffer whose byte
  length is not a multiple of the element size. -/
  | valueError
  deriving Repr, DecidableEq

/-! ## hashlib sha1 objects (`decoder.unique_bytes_hash`)

`hashlib` digests are incremental: `s.update(a); s.update(b)` leaves the
object in the same state as `s.update(a ++ b)`, and `s.hexdigest()` is a
function of the byte stream absorbed so far.  The SHA-1 compression
function itself is an external library primitive; it is kept abstract as a
`digest : List UInt8 → String` parameter (the lower-case hex digest of the
absorbed bytes), while the chunking loop of `unique_bytes_hash` is
embedded exactly. -/

/-- A `hashlib.sha1()` object, represented by the byte stream absorbed so
far. -/
structure Sha1 where
  absorbed : List UInt8
  deriving Repr, DecidableEq

/-- Sha1 member `update`: absorbs further bytes. -/
def Sha1.update (s : Sha1) (buf : List UInt8) : Sha1 :=
  ⟨s.absorbed ++ buf⟩

/-- Sha1 member `hexdigest`, as a function of the abstract digest
primitive. -/
def Sha1.hexdigest (digest : List UInt8 → String) (s : Sha1) : String :=
  digest s.absorbed

/-- The while-loop of `unique_bytes_hash`:
`while index < len(buffer): s.update(buffer[index:index+block_size]);
index += block_size`.  Advancing `index` by `block_size` over `buffer` is
recursion on `buffer.drop block_size`, the slice
`buffer[index:index+block_size]` being `buffer.take block_size` of the
remainder.  For `block_size = 0` the Python loop never terminates on a
non-empty buffer; that branch returns the state unchanged and is exercised
by no theorem below (every claim takes a positive block size). -/
def sha1UpdateLoop (s : Sha1) (buffer : List UInt8) (block_size : Nat) : Sha1 :=
  if h : buffer = [] then s
  else if h2 : block_size = 0 then s
  else sha1UpdateLoop (s.update (buffer.take block_size)) (buffer.drop block_size) block_size
termination_by buffer.length
decreasing_by
  have hpos : 0 < buffer.length := List.length_pos.mpr h
  simp only [List.length_drop]
  omega

/-- Python `str.upper()`: upper-case every character (character-wise over
the string's data; for the ASCII hex digests at hand this is exactly
`String.toUpper`). -/
def pyUpper (s : String) : String :=
  ⟨s.data.map Char.toUpper⟩

/-- Embedding of `decoder.unique_bytes_hash(data, block_size)` (decoder.py
lines 44–62): feed `data` to a fresh sha1 object in `block_size` slices and
return the upper-cased hex digest.  In the source `block_size` defaults to
`2 ** 20`; call sites pass that value explicitly here. -/
def unique_bytes_hash (digest : List UInt8 → String) (data : List UInt8)
    (block_size : Nat) : String :=
  pyUpper (Sha1.hexdigest digest (sha1UpdateLoop ⟨[]⟩ data block_size))

/-! ## pydub AudioSegment (external collaborator, observable contract)

`AudioSegment.from_raw(io.BytesIO(buffer), sample_width=, frame_rate=,
channels=)` wraps the raw bytes unmodified together with the supplied PCM
metadata.  `seg[:ms]` keeps the first `int(frame_rate * ms / 1000)` frames
(a frame is `sample_width * channels` bytes), where `ms` is first clamped
to `min(ms, len(seg))` and, when negative, counted from the end of the
segment (Python slice convention); `len(seg)` is the duration in
milliseconds, `round(1000 * frame_count / frame_rate)` with `frame_count =
len(raw_data) / frame_width`.  Floating-point ratios are modelled as exact
rationals. -/

/-- A pydub `AudioSegment`: raw interleaved PCM bytes plus metadata. -/
structure AudioSegment where
  raw_data : List UInt8
  frame_rate : Nat
  sample_width : Nat
  channels : Nat
  deriving Repr, DecidableEq

/-- pydub `AudioSegment.from_raw`: wraps the buffer bytes unmodified. -/
def AudioSegment.from_raw (buffer : List UInt8) (sample_width : Nat)
    (frame_rate : Nat) (channels : Nat) : AudioSegment :=
  { raw_data := buffer, frame_rate := frame_rate,
    sample_width := sample_width, channels := channels }

/-- Round `a / b` to the nearest integer, ties to even (Python `round`). -/
def roundHalfEvenDiv (a b : Nat) : Nat :=
  let q := a / b
  let r := a % b
  if 2 * r < b then q
  else if b < 2 * r then q + 1
  else if q % 2 = 0 then q else q + 1

/-- pydub `len(seg)`: duration in milliseconds,
`round(1000 * frame_count / frame_rate)`. -/
def AudioSegment.lenMs (seg : AudioSegment) : Nat :=
  roundHalfEvenDiv (1000 * seg.raw_data.length)
    (seg.sample_width * seg.channels * seg.frame_rate)

/-- Python byte-string slice `l[:k]` for an arbitrary (possibly negative)
integer stop: a negative stop counts from the end, and the result is
always a prefix. -/
def pySliceStop (l : List α) (k : Int) : List α :=
  if k < 0 then l.take (l.length - (-k).toNat) else l.take k.toNat

/-- pydub slicing `seg[:stop_ms]`: clamp the millisecond stop to the
segment duration (negative stops count from the end), convert it to a
frame count with `int(frame_rate * ms / 1000)` (`int()` truncates toward
zero, i.e. `Int.tdiv`), and keep that many frames of `raw_data`. -/
def AudioSegment.headMs (seg : AudioSegment) (stop_ms : Int) : AudioSegment :=
  let fw : Int := seg.sample_width * seg.channels
  let len_ms : Int := seg.lenMs
  let e : Int := min stop_ms len_ms
  let e' : Int := if e < 0 then len_ms + e else e
  let frames : Int := Int.tdiv (seg.frame_rate * e') 1000
  { seg with raw_data := pySliceStop seg.raw_data (frames * fw) }

/-! ## numpy int16 decoding -/

/-- Decode consecutive little-endian byte pairs as signed 16-bit samples
(the memory view `np.frombuffer(raw, np.int16)` takes of an even-length
buffer on a little-endian machine).  A trailing unpaired byte is never
reached: `npFrombufferInt16` errors first on odd lengths. -/
def bytesToInt16 : List UInt8 → List Int
  | lo :: hi :: rest =>
      (let v : Nat := lo.toNat + 256 * hi.toNat
       if v < 32768 then (v : Int) else (v : Int) - 65536) :: bytesToInt16 rest
  | _ => []

/-- numpy `np.frombuffer(raw, np.int16)`: raises `ValueError` when the
buffer size is not a multiple of the element size (2 bytes), otherwise
reinterprets the bytes as int16 samples. -/
def npFrombufferInt16 (raw : List UInt8) : Except PyError (List Int) :=
  if raw.length % 2 = 0 then .ok (bytesToInt16 raw) else .error .valueError

/-- Python extended slice `l[start::step]` for `step ≥ 1`: the elements at
positions `start, start + step, start + 2*step, …`.  `everyNth` handles
the stride after the initial drop. -/
def everyNth (step : Nat) (l : List α) : List α :=
  match l with
  | [] => []
  | a :: rest => a :: everyNth step (rest.drop (step - 1))
termination_by l.length
decreasing_by
  simp only [List.length_drop, List.length_cons]
  omega

/-- Python extended slice `l[start::step]` (used as `data[chn::channels]`
in the decoder). -/
def pyStride (start step : Nat) (l : List α) : List α :=
  everyNth step (l.drop start)

/-! ## decoder.read_from_buffer (decoder.py lines 138–182)

The embedding follows the `try` branch, the path taken for raw PCM input
(the `except audioop.error` branch is the 24-bit-wav fallback through
`dejavu.third_party.wavio` and is not reached for the raw buffers
modelled here).  The stages are named so that theorems can speak about
intermediate values:

* `rfb_segment` — `AudioSegment.from_raw(io.BytesIO(buffer), ...)`;
* `rfb_limited` — `if limit: audiofile = audiofile[:limit * 1000]`
  (note the Python truthiness test: `limit = None` and `limit = 0` both
  skip the slice);
* `rfb_padded` — `if len(audiofile.raw_data) % 2: temp_data += b'\x00'`
  followed by rebuilding the segment from the padded bytes, so the raw
  data handed to numpy is the padded byte string;
* `rfb_data` — `data = np.frombuffer(audiofile.raw_data, np.int16)`;
* `read_from_buffer` — the channel extraction `data[chn::channels]` for
  `chn in range(audiofile.channels)` and the final result tuple
  `(channels, audiofile.frame_rate, unique_bytes_hash(buffer))`. -/

/-- Result tuple of `decoder.read_from_buffer`. -/
structure ReadResult where
  channels : List (List Int)
  sample_rate : Nat
  file_hash : String
  deriving Repr, DecidableEq

/-- Stage 1 of `read_from_buffer`: `AudioSegment.from_raw`. -/
def rfb_segment (buffer : List UInt8) (frame_rate sample_width audio_channels : Nat) :
    AudioSegment :=
  AudioSegment.from_raw buffer sample_width frame_rate audio_channels

/-- Stage 2 of `read_from_buffer`: `if limit: audiofile = audiofile[:limit * 1000]`.
`limit` is `None` or a Python int; the truthiness test makes both `None`
and `0` skip the slicing. -/
def rfb_limited (buffer : List UInt8) (frame_rate sample_width audio_channels : Nat)
    (limit : Option Int) : AudioSegment :=
  let seg := rfb_segment buffer frame_rate sample_width audio_channels
  match limit with
  | none => seg
  | some l => if l = 0 then seg else seg.headMs (l * 1000)

/-- Stage 3 of `read_from_buffer`: append a single zero byte when the raw
data length is odd (the rebuilt segment has the padded bytes as its
`raw_data`). -/
def rfb_padded (buffer : List UInt8) (frame_rate sample_width audio_channels : Nat)
    (limit : Option Int) : List UInt8 :=
  let raw := (rfb_limited buffer frame_rate sample_width audio_channels limit).raw_data
  if raw.length % 2 = 1 then raw ++ [0] else raw

/-- Stage 4 of `read_from_buffer`: the decoded interleaved int16 sample
stream `data` (total because the padded byte string always has even
length; see the parity theorem below). -/
def rfb_data (buffer : List UInt8) (frame_rate sample_width audio_channels : Nat)
    (limit : Option Int) : List Int :=
  bytesToInt16 (rfb_padded buffer frame_rate sample_width audio_channels limit)

/-- Embedding of `decoder.read_from_buffer(buffer, frame_rate,
sample_width, audio_channels, limit)`: de-interleave the decoded samples
into `audio_channels` channels (`data[chn::channels]`) and return them
with the frame rate and `unique_bytes_hash(buffer)` (block size `2 ** 20`,
the source default). -/
def read_from_buffer (digest : List UInt8 → String) (buffer : List UInt8)
    (frame_rate sample_width audio_channels : Nat) (limit : Option Int) :
    Except PyError ReadResult :=
  match npFrombufferInt16 (rfb_padded buffer frame_rate sample_width audio_channels limit) with
  | .error e => .error e
  | .ok data =>
      .ok { channels := (List.range audio_channels).map (fun chn => pyStride chn audio_channels data),
            sample_rate := frame_rate,
            file_hash := unique_bytes_hash digest buffer (2 ^ 20) }

/-- The `ReadResult` of a successful `read_from_buffer` call (the raw-PCM
branch embedded here always succeeds; the error arm is unreachable and
returns an empty result). -/
def rfbOk (digest : List UInt8 → String) (buffer : List UInt8)
    (frame_rate sample_width audio_channels : Nat) (limit : Option Int) : ReadResult :=
  match read_from_buffer digest buffer frame_rate sample_width audio_channels limit with
  | .ok r => r
  | .error _ => ⟨[], 0, ""⟩

/-! ## BufferRecognizer (buffer_recognizer.py)

`recognize_buffer` runs
`channels, self.Fs, _ = decoder.read_from_buffer(content, self.dejavu.limit)`
— a call with exactly two positional arguments.  `read_from_buffer`
requires four (`buffer, frame_rate, sample_width, audio_channels`), so the
binding is modelled through an explicit positional-argument list: a list
that does not fit the signature raises `TypeError` (missing required
positional arguments), exactly as Python does before the callee body runs.
The pipeline after the decode (`self._recognize`, from the base class
outside `src/`, and the timing around it) is kept abstract; it is never
reached. -/

/-- A Python value in an argument position. -/
inductive PyVal where
  | vbytes (b : List UInt8)
  | vint (n : Int)
  | vnone
  deriving Repr, DecidableEq

/-- The `limit` parameter value denoted by an argument (default `None`). -/
def pyLimitOf : PyVal → Option Int
  | .vint n => some n
  | _ => none

/-- The `PyVal` for an optional Python int. -/
def pyValOfOptInt : Option Int → PyVal
  | some n => .vint n
  | none => .vnone

/-- Calling `decoder.read_from_buffer` with a positional argument list:
the signature `(buffer, frame_rate, sample_width, audio_channels,
limit=None)` has four required parameters, so any list that does not bind
them raises `TypeError`. -/
def read_from_buffer_call (digest : List UInt8 → String) (args : List PyVal) :
    Except PyError ReadResult :=
  match args with
  | [.vbytes buffer, .vint fr, .vint sw, .vint ch] =>
      read_from_buffer digest buffer fr.toNat sw.toNat ch.toNat none
  | [.vbytes buffer, .vint fr, .vint sw, .vint ch, lim] =>
      read_from_buffer digest buffer fr.toNat sw.toNat ch.toNat (pyLimitOf lim)
  | _ => .error .typeError

/-- The result dictionary built by `recognize_buffer` (settings keys
TOTAL_TIME, FINGERPRINT_TIME, QUERY_TIME, ALIGN_TIME, RESULTS). -/
structure RecognitionOutput where
  total_time : Int
  fingerprint_time : Int
  query_time : Int
  align_time : Int
  results : List (String × Int)
  deriving Repr, DecidableEq

/-- Embedding of `BufferRecognizer.recognize_buffer(content)` (also the
body of `recognize`, which delegates to it).  `core` stands for the
inherited `self._recognize` (matches and the three phase timings) and
`clock` for the wall-clock duration `time() - t` of that call; both live
outside `src/` and are unreachable here, because the decode call
`decoder.read_from_buffer(content, self.dejavu.limit)` passes only two of
the four required positional arguments and raises `TypeError`. -/
def recognize_buffer (digest : List UInt8 → String)
    (core : List (List Int) → List (String × Int) × Int × Int × Int)
    (clock : Int) (dejavu_limit : Option Int) (content : List UInt8) :
    Except PyError RecognitionOutput :=
  match read_from_buffer_call digest [.vbytes content, pyValOfOptInt dejavu_limit] with
  | .error e => .error e
  | .ok r =>
      let res := core r.channels
      .ok { total_time := clock, fingerprint_time := res.2.1,
            query_time := res.2.2.1, align_time := res.2.2.2,
            results := res.1 }

/-! ## CockroachdbSQLDatabase (cockroach_database.py)

The schema and the data manipulation statements are embedded as operations
on an explicit database state.  Hash values are modelled at byte level
(`decode(%s, 'hex')` on insert and on the `IN_MATCH` comparison, and
`upper(encode(..., 'hex'))` on select, are mutually inverse bijections
between hex strings and byte strings, so comparing the decoded values is
comparing the stored `BYTEA` values); song identifiers (`uuid`) are opaque
comparable keys, modelled as `Nat`; timestamp columns are not modelled (no
claim mentions them). -/

/-- A row of the songs table (`CREATE_SONGS_TABLE`): song id (uuid primary
key), song name, fingerprinted flag (SMALLINT, default 0), file sha1,
total hashes, song type. -/
structure SongRow where
  song_id : Nat
  song_name : String
  fingerprinted : Int
  file_sha1 : String
  total_hashes : Int
  song_type : Option String
  deriving Repr, DecidableEq

/-- A row of the fingerprints table (`CREATE_FINGERPRINTS_TABLE`): hash
(BYTEA), song id, offset (INT4). -/
structure FingerprintRow where
  hash : String
  song_id : Nat
  offset : Int
  deriving Repr, DecidableEq

/-- Referential action of a foreign key. -/
inductive FkAction where
  | cascade
  | noAction
  deriving Repr, DecidableEq

/-- Declarative part of a table definition: key, uniqueness, index and
foreign-key clauses, by column name. -/
structure TableSchema where
  primaryKey : List String
  uniqueConstraints : List (List String)
  indexes : List (List String)
  foreignKeys : List (List String × String × FkAction)
  deriving Repr, DecidableEq

/-- Transcription of `CREATE_FINGERPRINTS_TABLE` (cockroach_database.py
lines 33–46): `"hash" BYTEA PRIMARY KEY USING HASH` (a hash-sharded
primary key on the hash column alone), `CONSTRAINT uq_fingerprints UNIQUE
(song_id, offset, hash)`, `FOREIGN KEY (song_id) REFERENCES
songs(song_id) ON DELETE CASCADE`, and `CREATE INDEX ix_fingerprints_hash
ON fingerprints(hash) USING hash`. -/
def fingerprintsSchema : TableSchema :=
  { primaryKey := ["hash"],
    uniqueConstraints := [["song_id", "offset", "hash"]],
    indexes := [["hash"]],
    foreignKeys := [(["song_id"], "songs", .cascade)] }

/-- The state of the store: the songs table and the fingerprints table. -/
structure DBState where
  songs : List SongRow
  fingerprints : List FingerprintRow
  deriving Repr, DecidableEq

/-- Errors surfaced by the database (statement aborted, no state
change). -/
inductive DBError where
  | uniqueViolation
  | foreignKeyViolation
  deriving Repr, DecidableEq

/-- Whether inserting `r` into the fingerprints table conflicts with an
existing row under the table's constraints: the primary key on `hash`
alone, or the unique constraint on `(song_id, offset, hash)`. -/
def fingerprintConflict (tbl : List FingerprintRow) (r : FingerprintRow) : Bool :=
  tbl.any (fun q => q.hash == r.hash) ||
  tbl.any (fun q => q.song_id == r.song_id && q.offset == r.offset && q.hash == r.hash)

/-- One row of `INSERT_FINGERPRINT ... VALUES %s ON CONFLICT DO NOTHING`:
a conflicting row is silently dropped; a non-conflicting row must satisfy
the foreign key (its song id exists in the songs table) and is appended. -/
def insertFingerprintRow (songs : List SongRow) (tbl : List FingerprintRow)
    (r : FingerprintRow) : Except DBError (List FingerprintRow) :=
  if fingerprintConflict tbl r then .ok tbl
  else if songs.any (fun s => s.song_id == r.song_id) then .ok (tbl ++ [r])
  else .error .foreignKeyViolation

/-- The row-by-row effect of one `INSERT_FINGERPRINT` statement over a
value list (`execute_values`): each value row is checked against the table
as extended by the earlier rows of the same statement; a foreign-key
violation aborts the statement. -/
def insertRows (songs : List SongRow) (tbl : List FingerprintRow) :
    List FingerprintRow → Except DBError (List FingerprintRow)
  | [] => .ok tbl
  | r :: rest =>
      match insertFingerprintRow songs tbl r with
      | .ok tbl2 => insertRows songs tbl2 rest
      | .error e => .error e

/-- Embedding of `CockroachdbSQLDatabase.insert_hashes(song_id, hashes)`
(lines 160–176): build `values = [(song_id, hsh, int(offset)) for hsh,
offset in hashes]` and run `INSERT_FINGERPRINT` over them with
`ON CONFLICT DO NOTHING`. -/
def insert_hashes (st : DBState) (song_id : Nat) (hashes : List (String × Int)) :
    Except DBError DBState :=
  match insertRows st.songs st.fingerprints
      (hashes.map (fun p => FingerprintRow.mk p.1 song_id p.2)) with
  | .ok tbl => .ok { st with fingerprints := tbl }
  | .error e => .error e

/-- Embedding of `insert_song(song_name, file_hash, total_hashes, type)`
(`INSERT_SONG ... RETURNING song_id`): the database generates a fresh uuid
(`new_id` here); the fingerprinted flag takes its column default 0.  A
duplicate id would violate the primary key of the songs table. -/
def insert_song (st : DBState) (new_id : Nat) (song_name : String)
    (file_hash : String) (total_hashes : Int) (song_type : Option String) :
    Except DBError DBState :=
  if st.songs.any (fun s => s.song_id == new_id) then .error .uniqueViolation
  else .ok { st with
    songs := st.songs ++
      [{ song_id := new_id, song_name := song_name, fingerprinted := 0,
         file_sha1 := file_hash, total_hashes := total_hashes,
         song_type := song_type }] }

/-- Embedding of the `SELECT_MULTIPLE` lookup (lines 74–78):
`SELECT upper(encode(hash, 'hex')), song_id, offset FROM fingerprints
WHERE hash IN (...)` — the rows whose hash is among the queried hashes,
as (hash, song id, offset) triples. -/
def select_multiple (st : DBState) (hashes : List String) :
    List (String × Nat × Int) :=
  (st.fingerprints.filter (fun f => decide (f.hash ∈ hashes))).map
    (fun f => (f.hash, f.song_id, f.offset))

/-- Embedding of `DELETE_SONGS` (lines 129–131): delete the song rows
whose id is in the given list; `ON DELETE CASCADE` on the fingerprints
foreign key also deletes every fingerprint row referencing a deleted song
row. -/
def delete_songs (st : DBState) (ids : List Nat) : DBState :=
  let deletedIds := (st.songs.filter (fun s => ids.contains s.song_id)).map
    (fun s => s.song_id)
  { songs := st.songs.filter (fun s => !(ids.contains s.song_id)),
    fingerprints := st.fingerprints.filter (fun f => !(deletedIds.contains f.song_id)) }

/-- Embedding of `DELETE_UNFINGERPRINTED`: delete the song rows with
fingerprinted flag 0, cascading to their fingerprint rows. -/
def delete_unfingerprinted (st : DBState) : DBState :=
  let deletedIds := (st.songs.filter (fun s => s.fingerprinted == 0)).map
    (fun s => s.song_id)
  { songs := st.songs.filter (fun s => !(s.fingerprinted == 0)),
    fingerprints := st.fingerprints.filter (fun f => !(deletedIds.contains f.song_id)) }

/-- Embedding of `UPDATE_SONG_FINGERPRINTED`: set the fingerprinted flag
of the given song to 1 (the `date_modified = now()` part is not
modelled). -/
def update_song_fingerprinted (st : DBState) (song_id : Nat) : DBState :=
  let songs := st.songs.map
    (fun s => if s.song_id = song_id then { s with fingerprinted := 1 } else s)
  { st with songs := songs }

/-- No-orphan invariant of the store: every fingerprint row's song id
references an existing song row. -/
def noOrphans (st : DBState) : Prop :=
  ∀ f ∈ st.fingerprints, ∃ s ∈ st.songs, s.song_id = f.song_id

/-- Hash-key invariant of the fingerprints table: the `hash` column, being
the primary key, determines the row — no two distinct rows share a hash
value. -/
def hashKeyUnique (st : DBState) : Prop :=
  ∀ f ∈ st.fingerprints, ∀ g ∈ st.fingerprints, f.hash = g.hash → f = g

/-- Equality of `Except` results is decidable when both components are. -/
instance {ε α : Type} [DecidableEq ε] [DecidableEq α] : DecidableEq (Except ε α) := fun x y =>
  match x, y with
  | .ok a, .ok b => decidable_of_iff (a = b) ⟨fun h => by rw [h], fun h => by injection h⟩
  | .error a, .error b => decidable_of_iff (a = b) ⟨fun h => by rw [h], fun h => by injection h⟩
  | .ok _, .error _ => isFalse (fun h => Except.noConfusion h)
  | .error _, .ok _ => isFalse (fun h => Except.noConfusion h)

/-- The no-orphan invariant is decidable (bounded quantifiers over the
tables). -/
instance (st : DBState) : Decidable (noOrphans st) := by
  unfold noOrphans
  infer_instance

/-- The hash-key invariant is decidable. -/
instance (st : DBState) : Decidable (hashKeyUnique st) := by
  unfold hashKeyUnique
  infer_instance

/-! ## Concrete example data used by witnesses and counterexamples -/

/-- A concrete digest primitive for witnesses (any function of the
absorbed bytes). -/
def dig0 : List UInt8 → String :=
  fun l => if l.length % 2 = 0 then "e5f6" else "a1b2"

/-- A two-song store with one fingerprint row, owned by song 1. -/
def exDB : DBState :=
  { songs := [⟨1, "songA", 1, "AA", 1, none⟩, ⟨2, "songB", 0, "BB", 0, none⟩],
    fingerprints := [⟨"aa", 1, 0⟩] }

/-- The store `exDB` after inserting the fresh fingerprint ("bb", 3) for
song 1. -/
def exDB' : DBState :=
  { songs := exDB.songs,
    fingerprints := [⟨"aa", 1, 0⟩, ⟨"bb", 1, 3⟩] }

/-- The store `exDB` after inserting a new song with the fresh id 5. -/
def exDBins : DBState :=
  { songs := exDB.songs ++ [⟨5, "songC", 0, "CC", 0, none⟩],
    fingerprints := exDB.fingerprints }

/-! ## Theorems

Helper lemmas come first; each claim of the specification is then settled
by a single theorem (with a witness where the theorem carries
hypotheses). -/

/-- The chunking loop of `unique_bytes_hash` absorbs exactly the whole
buffer, in order, for every positive block size. -/
theorem sha1UpdateLoop_absorb (s : Sha1) (data : List UInt8) (bs : Nat) (h : 0 < bs) :
    sha1UpdateLoop s data bs = ⟨s.absorbed ++ data⟩ := by
  induction s, data, bs using sha1UpdateLoop.induct with
  | case1 s bs => simp [sha1UpdateLoop]
  | case2 s buffer bs => omega
  | case3 s buffer bs hne hz ih =>
      rw [sha1UpdateLoop]
      simp only [hne, hz, dite_false, dif_neg]
      rw [ih h]
      simp [Sha1.update, List.append_assoc, List.take_append_drop]

/-- For every positive block size, `unique_bytes_hash` is the upper-cased
digest of the whole data. -/
theorem unique_bytes_hash_eq_digest (digest : List UInt8 → String)
    (data : List UInt8) (bs : Nat) (h : 0 < bs) :
    unique_bytes_hash digest data bs = pyUpper (digest data) := by
  unfold unique_bytes_hash
  rw [sha1UpdateLoop_absorb _ _ _ h]
  rfl

/-- C10: for every byte array `d` and every positive `block_size`,
`unique_bytes_hash(d, block_size)` returns the upper-cased hex SHA-1
digest of the whole of `d` (the one-pass reference), independently of the
chosen block size: any two positive block sizes yield identical hashes. -/
theorem c10_chunked_hash_equals_whole_digest (digest : List UInt8 → String)
    (d : List UInt8) (bs bs2 : Nat) (h : 0 < bs) (h2 : 0 < bs2) :
    unique_bytes_hash digest d bs = pyUpper (digest d) ∧
    unique_bytes_hash digest d bs = unique_bytes_hash digest d bs2 := by
  rw [unique_bytes_hash_eq_digest digest d bs h, unique_bytes_hash_eq_digest digest d bs2 h2]
  exact ⟨rfl, rfl⟩

/-- Witness for C10 at a concrete digest, data and pair of block sizes. -/
theorem c10_witness :
    unique_bytes_hash dig0 [1, 2, 3] 2 = pyUpper (dig0 [1, 2, 3]) ∧
    unique_bytes_hash dig0 [1, 2, 3] 2 = unique_bytes_hash dig0 [1, 2, 3] 5 :=
  c10_chunked_hash_equals_whole_digest dig0 [1, 2, 3] 2 5 (by decide) (by decide)

/-- The padded byte string handed to `np.frombuffer` always has even
length. -/
theorem rfb_padded_even (buffer : List UInt8) (fr sw ch : Nat) (limit : Option Int) :
    (rfb_padded buffer fr sw ch limit).length % 2 = 0 := by
  unfold rfb_padded
  by_cases hr : (rfb_limited buffer fr sw ch limit).raw_data.length % 2 = 1
  · simp only [hr, if_pos, List.length_append, List.length_cons, List.length_nil]
    omega
  · simp only [hr, if_neg, ite_false]
    omega

/-- Evaluation of `read_from_buffer` on the raw-PCM path: it succeeds and
returns the strided channels of the decoded sample stream, the frame rate
and the buffer hash. -/
theorem rfb_ok_eq (digest : List UInt8 → String) (buffer : List UInt8)
    (fr sw ch : Nat) (limit : Option Int) :
    read_from_buffer digest buffer fr sw ch limit =
      .ok { channels := (List.range ch).map
              (fun chn => pyStride chn ch (rfb_data buffer fr sw ch limit)),
            sample_rate := fr,
            file_hash := unique_bytes_hash digest buffer (2 ^ 20) } := by
  unfold read_from_buffer npFrombufferInt16
  rw [if_pos (rfb_padded_even buffer fr sw ch limit)]
  rfl

/-- The successful result value of `read_from_buffer`, in closed form. -/
theorem rfbOk_eq (digest : List UInt8 → String) (buffer : List UInt8)
    (fr sw ch : Nat) (limit : Option Int) :
    rfbOk digest buffer fr sw ch limit =
      { channels := (List.range ch).map
          (fun chn => pyStride chn ch (rfb_data buffer fr sw ch limit)),
        sample_rate := fr,
        file_hash := unique_bytes_hash digest buffer (2 ^ 20) } := by
  unfold rfbOk
  rw [rfb_ok_eq]

/-- Element `j` of the stride `l[::step]` is element `j * step` of `l`. -/
theorem everyNth_getElem {α : Type} (step : Nat) (h : 0 < step) :
    ∀ (l : List α) (j : Nat), (everyNth step l)[j]? = l[j * step]? := by
  intro l
  induction l using everyNth.induct step with
  | case1 => intro j; simp [everyNth]
  | case2 a rest ih =>
      intro j
      rw [everyNth]
      cases j with
      | zero => simp
      | succ j =>
          rw [List.getElem?_cons_succ, ih j, List.getElem?_drop]
          have hs : (j + 1) * step = ((step - 1) + j * step) + 1 := by
            have hmul : (j + 1) * step = j * step + step := by ring
            omega
          rw [hs, List.getElem?_cons_succ]

/-- Element `j` of the extended slice `l[start::step]` is element
`start + j * step` of `l`. -/
theorem pyStride_getElem {α : Type} (start step : Nat) (h : 0 < step) (l : List α) (j : Nat) :
    (pyStride start step l)[j]? = l[start + j * step]? := by
  unfold pyStride
  rw [everyNth_getElem step h, List.getElem?_drop]

/-- C8: `read_from_buffer` is total with respect to buffer length parity:
whenever the decoded raw data has odd byte length, a single zero byte is
appended before sample conversion, the byte string handed to the int16
conversion always has even length, and the call returns a result rather
than failing on the odd length. -/
theorem c8_odd_length_padded_to_even (digest : List UInt8 → String) (buffer : List UInt8)
    (fr sw ch : Nat) (limit : Option Int)
    (hodd : (rfb_limited buffer fr sw ch limit).raw_data.length % 2 = 1) :
    rfb_padded buffer fr sw ch limit =
      (rfb_limited buffer fr sw ch limit).raw_data ++ [0] ∧
    (rfb_padded buffer fr sw ch limit).length % 2 = 0 ∧
    read_from_buffer digest buffer fr sw ch limit =
      .ok (rfbOk digest buffer fr sw ch limit) := by
  refine ⟨?_, rfb_padded_even buffer fr sw ch limit, ?_⟩
  · unfold rfb_padded
    rw [if_pos hodd]
  · rw [rfb_ok_eq, rfbOk_eq]

/-- Witness for C8 on a concrete 3-byte (odd) buffer. -/
theorem c8_witness :
    rfb_padded [1, 2, 3] 1 1 1 none = (rfb_limited [1, 2, 3] 1 1 1 none).raw_data ++ [0] ∧
    (rfb_padded [1, 2, 3] 1 1 1 none).length % 2 = 0 ∧
    read_from_buffer dig0 [1, 2, 3] 1 1 1 none = .ok (rfbOk dig0 [1, 2, 3] 1 1 1 none) :=
  c8_odd_length_padded_to_even dig0 [1, 2, 3] 1 1 1 none (by decide)

/-- C7: for every decoded input with `ch` channels, `read_from_buffer`
returns exactly `ch` channels, channel `k` being the subsequence of the
decoded interleaved sample stream at positions `k, k + ch, k + 2·ch, …`
(element `j` of channel `k` is element `k + j·ch` of the stream); the
returned sample rate is the audio's frame rate and the returned content
hash is the digest of the whole input buffer (upper-cased). -/
theorem c7_channel_deinterleave (digest : List UInt8 → String) (buffer : List UInt8)
    (fr sw ch : Nat) (limit : Option Int) (k j : Nat) (hk : k < ch) :
    read_from_buffer digest buffer fr sw ch limit =
      .ok (rfbOk digest buffer fr sw ch limit) ∧
    (rfbOk digest buffer fr sw ch limit).channels.length = ch ∧
    ((rfbOk digest buffer fr sw ch limit).channels.getD k [])[j]? =
      (rfb_data buffer fr sw ch limit)[k + j * ch]? ∧
    (rfbOk digest buffer fr sw ch limit).sample_rate = fr ∧
    (rfbOk digest buffer fr sw ch limit).file_hash = pyUpper (digest buffer) := by
  have hch : 0 < ch := Nat.lt_of_le_of_lt (Nat.zero_le k) hk
  refine ⟨by rw [rfb_ok_eq, rfbOk_eq], ?_, ?_, by rw [rfbOk_eq], ?_⟩ <;> rw [rfbOk_eq]
  · simp
  · have hg : ((List.range ch).map
        (fun chn => pyStride chn ch (rfb_data buffer fr sw ch limit))).getD k [] =
        pyStride k ch (rfb_data buffer fr sw ch limit) := by
      simp [List.getD, List.getElem?_range hk]
    rw [hg, pyStride_getElem k ch hch]
  · exact unique_bytes_hash_eq_digest digest buffer _ (by norm_num)

/-- Witness for C7 on a concrete stereo buffer, channel 1, element 0. -/
theorem c7_witness :
    read_from_buffer dig0 [1, 0, 2, 0] 4 2 2 none =
      .ok (rfbOk dig0 [1, 0, 2, 0] 4 2 2 none) ∧
    (rfbOk dig0 [1, 0, 2, 0] 4 2 2 none).channels.length = 2 ∧
    ((rfbOk dig0 [1, 0, 2, 0] 4 2 2 none).channels.getD 1 [])[0]? =
      (rfb_data [1, 0, 2, 0] 4 2 2 none)[1 + 0 * 2]? ∧
    (rfbOk dig0 [1, 0, 2, 0] 4 2 2 none).sample_rate = 4 ∧
    (rfbOk dig0 [1, 0, 2, 0] 4 2 2 none).file_hash = pyUpper (dig0 [1, 0, 2, 0]) :=
  c7_channel_deinterleave dig0 [1, 0, 2, 0] 4 2 2 none 1 0 (by decide)

/-- The raw data kept by pydub slicing `seg[:stop]` for a non-negative
millisecond stop: the byte prefix of
`int(frame_rate * min(stop, len(seg)) / 1000)` frames. -/
theorem headMs_take (seg : AudioSegment) (stop : Int) (hs : 0 ≤ stop) :
    (seg.headMs stop).raw_data =
      seg.raw_data.take
        ((seg.frame_rate * min stop.toNat seg.lenMs / 1000) *
          (seg.sample_width * seg.channels)) := by
  simp only [AudioSegment.headMs, pySliceStop]
  have he : min stop (seg.lenMs : Int) = ((min stop.toNat seg.lenMs : Nat) : Int) := by
    rw [Nat.cast_min, Int.toNat_of_nonneg hs]
  rw [he]
  have hc1 : ¬(((min stop.toNat seg.lenMs : Nat) : Int) < 0) := by omega
  rw [if_neg hc1]
  have htd : Int.tdiv ((seg.frame_rate : Int) * ((min stop.toNat seg.lenMs : Nat) : Int)) 1000 =
      ((seg.frame_rate * min stop.toNat seg.lenMs / 1000 : Nat) : Int) := by
    rw [Int.ofNat_tdiv]
    push_cast
    rfl
  rw [htd]
  have hm : (((seg.frame_rate * min stop.toNat seg.lenMs / 1000 : Nat) : Int) *
      ((seg.sample_width : Int) * (seg.channels : Int))) =
      (((seg.frame_rate * min stop.toNat seg.lenMs / 1000) *
        (seg.sample_width * seg.channels) : Nat) : Int) := by
    push_cast
    ring
  rw [hm]
  have hc2 : ¬((((seg.frame_rate * min stop.toNat seg.lenMs / 1000) *
      (seg.sample_width * seg.channels) : Nat) : Int) < 0) := by omega
  rw [if_neg hc2]
  congr 1

/-- C6 (amended): a positive seconds limit truncates the decoded raw data
to a prefix of the buffer covering at most `limit` seconds
(`limit · frame_rate` frames of `sample_width · channels` bytes); with no
limit, and likewise with a limit of 0 (Python's `if limit:` treats 0 as
false), the full audio is decoded. -/
theorem c6_positive_limit_truncates (buffer : List UInt8) (fr sw ch : Nat)
    (l : Int) (hl : 0 < l) :
    (rfb_limited buffer fr sw ch (some l)).raw_data =
      buffer.take ((rfb_limited buffer fr sw ch (some l)).raw_data.length) ∧
    (rfb_limited buffer fr sw ch (some l)).raw_data.length ≤ l.toNat * fr * (sw * ch) ∧
    rfb_limited buffer fr sw ch none = rfb_segment buffer fr sw ch ∧
    rfb_limited buffer fr sw ch (some 0) = rfb_segment buffer fr sw ch := by
  have hl0 : l ≠ 0 := by omega
  have hseg : rfb_limited buffer fr sw ch (some l) =
      (rfb_segment buffer fr sw ch).headMs (l * 1000) := by
    simp [rfb_limited, hl0]
  have hstop : (0 : Int) ≤ l * 1000 := by omega
  have htake := headMs_take (rfb_segment buffer fr sw ch) (l * 1000) hstop
  have hraw : (rfb_segment buffer fr sw ch).raw_data = buffer := rfl
  have hfr : (rfb_segment buffer fr sw ch).frame_rate = fr := rfl
  have hsw : (rfb_segment buffer fr sw ch).sample_width = sw := rfl
  have hch : (rfb_segment buffer fr sw ch).channels = ch := rfl
  rw [hraw, hfr, hsw, hch] at htake
  set M := fr * min (l * 1000).toNat (rfb_segment buffer fr sw ch).lenMs / 1000 * (sw * ch)
    with hM
  refine ⟨?_, ?_, rfl, rfl⟩
  · rw [hseg, htake, List.length_take]
    rcases le_total M buffer.length with hle | hle
    · rw [min_eq_left hle]
    · rw [min_eq_right hle, List.take_length, List.take_of_length_le hle]
  · rw [hseg, htake, List.length_take]
    have h1 : (l * 1000).toNat = l.toNat * 1000 := by omega
    have h2 : fr * min (l * 1000).toNat (rfb_segment buffer fr sw ch).lenMs / 1000 ≤
        fr * l.toNat := by
      calc fr * min (l * 1000).toNat (rfb_segment buffer fr sw ch).lenMs / 1000
          ≤ fr * (l.toNat * 1000) / 1000 := by
            apply Nat.div_le_div_right
            apply Nat.mul_le_mul_left
            rw [← h1]
            exact min_le_left _ _
        _ = fr * l.toNat := by
            rw [show fr * (l.toNat * 1000) = fr * l.toNat * 1000 by ring]
            exact Nat.mul_div_cancel _ (by norm_num)
    calc min M buffer.length ≤ M := min_le_left _ _
      _ ≤ fr * l.toNat * (sw * ch) := Nat.mul_le_mul_right _ h2
      _ = l.toNat * fr * (sw * ch) := by ring

/-- Witness for the amended C6: a 6-byte buffer at 1 frame per second,
2-byte mono frames (3 seconds of audio), limited to 1 second. -/
theorem c6_witness :
    (rfb_limited [1, 2, 3, 4, 5, 6] 1 2 1 (some 1)).raw_data =
      List.take ((rfb_limited [1, 2, 3, 4, 5, 6] 1 2 1 (some 1)).raw_data.length)
        [1, 2, 3, 4, 5, 6] ∧
    (rfb_limited [1, 2, 3, 4, 5, 6] 1 2 1 (some 1)).raw_data.length ≤
      (1 : Int).toNat * 1 * (2 * 1) ∧
    rfb_limited [1, 2, 3, 4, 5, 6] 1 2 1 none = rfb_segment [1, 2, 3, 4, 5, 6] 1 2 1 ∧
    rfb_limited [1, 2, 3, 4, 5, 6] 1 2 1 (some 0) = rfb_segment [1, 2, 3, 4, 5, 6] 1 2 1 :=
  c6_positive_limit_truncates [1, 2, 3, 4, 5, 6] 1 2 1 1 (by decide)

/-- C6 counterexample: the claim asserts truncation for every non-negative
limit including 0, but `if limit:` is false at 0, so a 2-second buffer
(4 bytes, 1 frame per second, 2-byte mono frames) decoded with limit 0
yields both decoded samples — the same full result as with no limit —
instead of channel data drawn from the first 0 seconds. -/
theorem c6_counterexample_zero_limit :
    read_from_buffer dig0 [1, 2, 3, 4] 1 2 1 (some 0) =
      read_from_buffer dig0 [1, 2, 3, 4] 1 2 1 none ∧
    read_from_buffer dig0 [1, 2, 3, 4] 1 2 1 (some 0) =
      .ok ⟨[[513, 1027]], 1, pyUpper (dig0 [1, 2, 3, 4])⟩ := by
  have hdata : rfb_data [1, 2, 3, 4] 1 2 1 (some 0) = rfb_data [1, 2, 3, 4] 1 2 1 none := rfl
  constructor
  · rw [rfb_ok_eq, rfb_ok_eq, hdata]
  · rw [rfb_ok_eq, unique_bytes_hash_eq_digest dig0 [1, 2, 3, 4] (2 ^ 20) (by norm_num)]
    simp [List.range_succ, pyStride, rfb_data, rfb_padded, rfb_limited, rfb_segment,
      AudioSegment.from_raw, bytesToInt16, everyNth]
    decide

/-- The decode call inside `recognize_buffer` passes only two positional
arguments (`content` and `self.dejavu.limit`) to the four-required-argument
`read_from_buffer`, so it raises `TypeError` for every buffer and every
configured limit. -/
theorem recognize_buffer_decode_typeError (digest : List UInt8 → String)
    (core : List (List Int) → List (String × Int) × Int × Int × Int)
    (clock : Int) (dejavu_limit : Option Int) (content : List UInt8) :
    recognize_buffer digest core clock dejavu_limit content = .error .typeError := by
  unfold recognize_buffer read_from_buffer_call
  cases dejavu_limit <;> rfl

/-- C2 (code bug): the recognizer is supposed to decode the buffer with
the caller-supplied sample rate, sample width and channel count, but
`recognize_buffer` calls `decoder.read_from_buffer(content,
self.dejavu.limit)` — two positional arguments for a signature with four
required parameters — so every call raises `TypeError` instead of
decoding; no caller-supplied PCM parameters are threaded through at
all. -/
theorem c2_recognize_buffer_missing_decode_args (digest : List UInt8 → String)
    (core : List (List Int) → List (String × Int) × Int × Int × Int)
    (clock : Int) (dejavu_limit : Option Int) (content : List UInt8) :
    recognize_buffer digest core clock dejavu_limit content = .error .typeError :=
  recognize_buffer_decode_typeError digest core clock dejavu_limit content

/-- C5 (code bug): the recognition result is supposed to carry the five
components (total, fingerprint, query and align times plus the match
list), but `recognize_buffer` never returns any result structure: the
decode call raises `TypeError` first on every input. -/
theorem c5_recognize_buffer_never_returns_result (digest : List UInt8 → String)
    (core : List (List Int) → List (String × Int) × Int × Int × Int)
    (clock : Int) (dejavu_limit : Option Int) (content : List UInt8) :
    (recognize_buffer digest core clock dejavu_limit content).isOk = false := by
  rw [recognize_buffer_decode_typeError digest core clock dejavu_limit content]
  rfl

/-- A row sharing its hash value with any stored row conflicts (primary
key on the hash column). -/
theorem fingerprintConflict_of_hash (tbl : List FingerprintRow) (r : FingerprintRow)
    (q : FingerprintRow) (hq : q ∈ tbl) (hh : q.hash = r.hash) :
    fingerprintConflict tbl r = true := by
  unfold fingerprintConflict
  apply Bool.or_eq_true_iff.mpr
  left
  exact List.any_eq_true.mpr ⟨q, hq, by simp [hh]⟩

/-- A conflicting insert always has a stored row with the same hash value
(the triple-uniqueness conflict implies a hash conflict). -/
theorem fingerprintConflict_hash_exists (tbl : List FingerprintRow) (r : FingerprintRow)
    (h : fingerprintConflict tbl r = true) :
    ∃ q ∈ tbl, q.hash = r.hash := by
  unfold fingerprintConflict at h
  rcases Bool.or_eq_true_iff.mp h with h1 | h1
  · obtain ⟨q, hq, hb⟩ := List.any_eq_true.mp h1
    exact ⟨q, hq, by simpa using hb⟩
  · obtain ⟨q, hq, hb⟩ := List.any_eq_true.mp h1
    simp only [Bool.and_eq_true, beq_iff_eq] at hb
    exact ⟨q, hq, hb.2⟩

/-- A non-conflicting row shares its hash with no stored row. -/
theorem fingerprintConflict_no_hash (tbl : List FingerprintRow) (r : FingerprintRow)
    (h : fingerprintConflict tbl r = false) :
    ∀ q ∈ tbl, q.hash ≠ r.hash := by
  intro q hq hh
  rw [fingerprintConflict_of_hash tbl r q hq hh] at h
  exact absurd h (by simp)

/-- Case analysis of one successful fingerprint-row insert: either the
row conflicted and the table is unchanged, or it did not conflict, passed
the foreign-key check and was appended. -/
theorem insertFingerprintRow_cases (songs : List SongRow) (tbl : List FingerprintRow)
    (r : FingerprintRow) (tbl2 : List FingerprintRow)
    (h : insertFingerprintRow songs tbl r = .ok tbl2) :
    (fingerprintConflict tbl r = true ∧ tbl2 = tbl) ∨
    (fingerprintConflict tbl r = false ∧ tbl2 = tbl ++ [r] ∧
      songs.any (fun s => s.song_id == r.song_id) = true) := by
  unfold insertFingerprintRow at h
  by_cases hc : fingerprintConflict tbl r = true
  · rw [if_pos hc] at h
    injection h with h
    exact Or.inl ⟨hc, h.symm⟩
  · rw [if_neg hc] at h
    by_cases hf : songs.any (fun s => s.song_id == r.song_id) = true
    · rw [if_pos hf] at h
      injection h with h
      exact Or.inr ⟨Bool.not_eq_true _ ▸ hc, h.symm, hf⟩
    · rw [if_neg hf] at h
      exact absurd h (by simp)

/-- A successful insert statement only grows the table: stored rows stay
stored. -/
theorem insertRows_mono (songs : List SongRow) :
    ∀ (rows : List FingerprintRow) (tbl tbl' : List FingerprintRow),
      insertRows songs tbl rows = .ok tbl' → ∀ q ∈ tbl, q ∈ tbl' := by
  intro rows
  induction rows with
  | nil =>
      intro tbl tbl' h q hq
      unfold insertRows at h
      injection h with h
      exact h ▸ hq
  | cons r rest ih =>
      intro tbl tbl' h q hq
      unfold insertRows at h
      cases h1 : insertFingerprintRow songs tbl r with
      | error e => rw [h1] at h; exact absurd h (by simp)
      | ok tbl2 =>
          rw [h1] at h
          rcases insertFingerprintRow_cases songs tbl r tbl2 h1 with ⟨_, he⟩ | ⟨_, he, _⟩
          · exact ih tbl2 tbl' h q (he ▸ hq)
          · exact ih tbl2 tbl' h q (he ▸ List.mem_append_left _ hq)

/-- After a successful insert statement, every value row's hash value is
present in the resulting table (either it conflicted with a stored row of
the same hash, or it was appended). -/
theorem insertRows_hash_covered (songs : List SongRow) :
    ∀ (rows : List FingerprintRow) (tbl tbl' : List FingerprintRow),
      insertRows songs tbl rows = .ok tbl' →
      ∀ p ∈ rows, ∃ q ∈ tbl', q.hash = p.hash := by
  intro rows
  induction rows with
  | nil => intro tbl tbl' h p hp; exact absurd hp (List.not_mem_nil p)
  | cons r rest ih =>
      intro tbl tbl' h p hp
      unfold insertRows at h
      cases h1 : insertFingerprintRow songs tbl r with
      | error e => rw [h1] at h; exact absurd h (by simp)
      | ok tbl2 =>
          rw [h1] at h
          rcases List.mem_cons.mp hp with rfl | hp'
          · rcases insertFingerprintRow_cases songs tbl p tbl2 h1 with ⟨hc, he⟩ | ⟨_, he, _⟩
            · obtain ⟨q, hq, hh⟩ := fingerprintConflict_hash_exists tbl p hc
              exact ⟨q, insertRows_mono songs rest tbl2 tbl' h q (he ▸ hq), hh⟩
            · refine ⟨p, insertRows_mono songs rest tbl2 tbl' h p ?_, rfl⟩
              rw [he]
              exact List.mem_append_right _ (List.mem_singleton.mpr rfl)
          · exact ih tbl2 tbl' h p hp'

/-- An insert statement all of whose value rows already have their hash in
the table is a complete no-op: every row conflicts and is silently
dropped. -/
theorem insertRows_noop (songs : List SongRow) :
    ∀ (rows : List FingerprintRow) (tbl : List FingerprintRow),
      (∀ p ∈ rows, ∃ q ∈ tbl, q.hash = p.hash) →
      insertRows songs tbl rows = .ok tbl := by
  intro rows
  induction rows with
  | nil => intro tbl _; rfl
  | cons r rest ih =>
      intro tbl hcov
      obtain ⟨q, hq, hh⟩ := hcov r (List.mem_cons_self r rest)
      unfold insertRows insertFingerprintRow
      rw [if_pos (fingerprintConflict_of_hash tbl r q hq hh)]
      exact ih tbl (fun p hp => hcov p (List.mem_cons_of_mem r hp))

/-- A successful insert statement preserves the hash-key invariant: no
two rows of the resulting table share a hash value. -/
theorem insertRows_hashKeyUnique (songs : List SongRow) :
    ∀ (rows : List FingerprintRow) (tbl tbl' : List FingerprintRow),
      (∀ f ∈ tbl, ∀ g ∈ tbl, f.hash = g.hash → f = g) →
      insertRows songs tbl rows = .ok tbl' →
      ∀ f ∈ tbl', ∀ g ∈ tbl', f.hash = g.hash → f = g := by
  intro rows
  induction rows with
  | nil =>
      intro tbl tbl' hu h
      unfold insertRows at h
      injection h with h
      exact h ▸ hu
  | cons r rest ih =>
      intro tbl tbl' hu h
      unfold insertRows at h
      cases h1 : insertFingerprintRow songs tbl r with
      | error e => rw [h1] at h; exact absurd h (by simp)
      | ok tbl2 =>
          rw [h1] at h
          rcases insertFingerprintRow_cases songs tbl r tbl2 h1 with ⟨_, he⟩ | ⟨hc, he, _⟩
          · exact ih tbl2 tbl' (he ▸ hu) h
          · refine ih tbl2 tbl' ?_ h
            subst he
            intro f hf g hg hh
            rcases List.mem_append.mp hf with hf' | hf' <;>
              rcases List.mem_append.mp hg with hg' | hg'
            · exact hu f hf' g hg' hh
            · rw [List.mem_singleton.mp hg'] at hh ⊢
              exact absurd hh (fingerprintConflict_no_hash tbl r hc f hf')
            · rw [List.mem_singleton.mp hf'] at hh ⊢
              exact absurd hh.symm (fingerprintConflict_no_hash tbl r hc g hg')
            · rw [List.mem_singleton.mp hf', List.mem_singleton.mp hg']

/-- A successful insert statement preserves the foreign-key property:
every row of the resulting table references an existing song. -/
theorem insertRows_fk (songs : List SongRow) :
    ∀ (rows : List FingerprintRow) (tbl tbl' : List FingerprintRow),
      (∀ f ∈ tbl, ∃ s ∈ songs, s.song_id = f.song_id) →
      insertRows songs tbl rows = .ok tbl' →
      ∀ f ∈ tbl', ∃ s ∈ songs, s.song_id = f.song_id := by
  intro rows
  induction rows with
  | nil =>
      intro tbl tbl' hfk h
      unfold insertRows at h
      injection h with h
      exact h ▸ hfk
  | cons r rest ih =>
      intro tbl tbl' hfk h
      unfold insertRows at h
      cases h1 : insertFingerprintRow songs tbl r with
      | error e => rw [h1] at h; exact absurd h (by simp)
      | ok tbl2 =>
          rw [h1] at h
          rcases insertFingerprintRow_cases songs tbl r tbl2 h1 with ⟨_, he⟩ | ⟨_, he, hany⟩
          · exact ih tbl2 tbl' (he ▸ hfk) h
          · refine ih tbl2 tbl' ?_ h
            subst he
            intro f hf
            rcases List.mem_append.mp hf with hf' | hf'
            · exact hfk f hf'
            · obtain ⟨s, hs, hb⟩ := List.any_eq_true.mp hany
              rw [List.mem_singleton.mp hf']
              exact ⟨s, hs, by simpa using hb⟩

/-- C3: fingerprint insertion is idempotent and duplicate-tolerant.
Inserting a single (hash, offset) pair whose triple is already stored is
a silent no-op returning the unchanged store, and re-running a successful
`insert_hashes` call on its own result is again a success returning the
identical store — in particular the total fingerprint count is unchanged
after the second insert. -/
theorem c3_insert_hashes_idempotent (st st' : DBState) (sid : Nat)
    (hs : List (String × Int)) (hsh : String) (off : Int)
    (h : insert_hashes st sid hs = .ok st')
    (hmem : FingerprintRow.mk hsh sid off ∈ st.fingerprints) :
    insert_hashes st' sid hs = .ok st' ∧
    insert_hashes st sid [(hsh, off)] = .ok st := by
  constructor
  · unfold insert_hashes at h ⊢
    cases h2 : insertRows st.songs st.fingerprints
        (hs.map (fun p => FingerprintRow.mk p.1 sid p.2)) with
    | error e => rw [h2] at h; exact absurd h (by simp)
    | ok tbl =>
        rw [h2] at h
        injection h with h
        subst h
        have hcov := insertRows_hash_covered st.songs
          (hs.map (fun p => FingerprintRow.mk p.1 sid p.2)) st.fingerprints tbl h2
        rw [insertRows_noop st.songs _ tbl hcov]
  · unfold insert_hashes
    have hcov : ∀ p ∈ [FingerprintRow.mk hsh sid off],
        ∃ q ∈ st.fingerprints, q.hash = p.hash := by
      intro p hp
      rw [List.mem_singleton.mp hp]
      exact ⟨FingerprintRow.mk hsh sid off, hmem, rfl⟩
    rw [show ([(hsh, off)].map (fun p => FingerprintRow.mk p.1 sid p.2)) =
      [FingerprintRow.mk hsh sid off] from rfl]
    rw [insertRows_noop st.songs _ st.fingerprints hcov]

/-- Witness for C3: re-inserting into the two-song example store. -/
theorem c3_witness :
    insert_hashes exDB' 1 [("bb", 3)] = .ok exDB' ∧
    insert_hashes exDB 1 [("aa", 0)] = .ok exDB :=
  c3_insert_hashes_idempotent exDB exDB' 1 [("bb", 3)] "aa" 0 (by decide) (by decide)

/-- C1 counterexample: the claim says two different songs may store the
same hash value (uniqueness only on the full triple), but the hash column
is the table's primary key.  In `exDB` songs 1 and 2 both exist and song 1
stores hash "aa" at offset 0; inserting ("aa", 7) for song 2 — a triple
that differs from the stored one in both song id and offset — is silently
dropped, leaving the table with the single original row. -/
theorem c1_counterexample :
    insert_hashes exDB 2 [("aa", 7)] = .ok exDB ∧
    exDB.fingerprints = [FingerprintRow.mk "aa" 1 0] := by
  constructor
  · decide
  · rfl

/-- C1 (amended): the fingerprints table enforces uniqueness on the hash
column alone — it is the primary key, which subsumes the declared unique
constraint on (song id, offset, hash) — so a hash value occurs in at most
one row and two different songs (or two offsets of one song) can never
store the same hash; the table also carries an index on the hash column,
and every insert maintains the hash-key invariant by silently dropping
conflicting rows. -/
theorem c1_hash_is_primary_key (st st' : DBState) (sid : Nat) (hs : List (String × Int))
    (hu : hashKeyUnique st) (h : insert_hashes st sid hs = .ok st') :
    fingerprintsSchema.primaryKey = ["hash"] ∧
    fingerprintsSchema.uniqueConstraints = [["song_id", "offset", "hash"]] ∧
    fingerprintsSchema.indexes = [["hash"]] ∧
    hashKeyUnique st' := by
  refine ⟨rfl, rfl, rfl, ?_⟩
  unfold insert_hashes at h
  cases h2 : insertRows st.songs st.fingerprints
      (hs.map (fun p => FingerprintRow.mk p.1 sid p.2)) with
  | error e => rw [h2] at h; exact absurd h (by simp)
  | ok tbl =>
      rw [h2] at h
      injection h with h
      subst h
      exact insertRows_hashKeyUnique st.songs _ st.fingerprints tbl hu h2

/-- Witness for the amended C1 on the example store. -/
theorem c1_witness :
    fingerprintsSchema.primaryKey = ["hash"] ∧
    fingerprintsSchema.uniqueConstraints = [["song_id", "offset", "hash"]] ∧
    fingerprintsSchema.indexes = [["hash"]] ∧
    hashKeyUnique exDB' :=
  c1_hash_is_primary_key exDB exDB' 1 [("bb", 3)] (by decide) (by decide)

/-- C9: referential integrity.  The schema declares the fingerprints
song-id column as a foreign key into the songs table with ON DELETE
CASCADE, and the no-orphan invariant — every fingerprint row references
an existing song row — is preserved by song insertion, fingerprint
insertion, the fingerprinted-flag update, id-list song deletion (which
cascades) and unfingerprinted-song deletion (which cascades). -/
theorem c9_referential_integrity (st st1 st2 : DBState) (h : noOrphans st)
    (nid sid : Nat) (sname fsha : String) (tot : Int) (ty : Option String)
    (hs : List (String × Int)) (ids : List Nat)
    (h1 : insert_song st nid sname fsha tot ty = .ok st1)
    (h2 : insert_hashes st sid hs = .ok st2) :
    fingerprintsSchema.foreignKeys = [(["song_id"], "songs", FkAction.cascade)] ∧
    noOrphans st1 ∧ noOrphans st2 ∧
    noOrphans (update_song_fingerprinted st sid) ∧
    noOrphans (delete_songs st ids) ∧
    noOrphans (delete_unfingerprinted st) := by
  refine ⟨rfl, ?_, ?_, ?_, ?_, ?_⟩
  · unfold insert_song at h1
    by_cases hdup : st.songs.any (fun s => s.song_id == nid) = true
    · rw [if_pos hdup] at h1; exact absurd h1 (by simp)
    · rw [if_neg hdup] at h1
      injection h1 with h1
      subst h1
      intro f hf
      obtain ⟨s, hs', hid⟩ := h f hf
      exact ⟨s, List.mem_append_left _ hs', hid⟩
  · unfold insert_hashes at h2
    cases hrows : insertRows st.songs st.fingerprints
        (hs.map (fun p => FingerprintRow.mk p.1 sid p.2)) with
    | error e => rw [hrows] at h2; exact absurd h2 (by simp)
    | ok tbl =>
        rw [hrows] at h2
        injection h2 with h2
        subst h2
        exact insertRows_fk st.songs _ st.fingerprints tbl h hrows
  · intro f hf
    obtain ⟨s, hs', hid⟩ := h f hf
    refine ⟨if s.song_id = sid then { s with fingerprinted := 1 } else s, ?_, ?_⟩
    · exact List.mem_map_of_mem _ hs'
    · by_cases hcase : s.song_id = sid
      · rw [if_pos hcase]
        exact hid
      · rw [if_neg hcase]
        exact hid
  · intro f hf
    simp only [delete_songs] at hf ⊢
    rw [List.mem_filter] at hf
    obtain ⟨hfmem, hfkeep⟩ := hf
    obtain ⟨s, hs', hid⟩ := h f hfmem
    have hkeep : ids.contains s.song_id = false := by
      by_contra hcon
      rw [Bool.not_eq_false] at hcon
      have hdel : s.song_id ∈ (st.songs.filter (fun t => ids.contains t.song_id)).map
          (fun t => t.song_id) :=
        List.mem_map_of_mem _ (List.mem_filter.mpr ⟨hs', hcon⟩)
      have hcont : ((st.songs.filter (fun t => ids.contains t.song_id)).map
          (fun t => t.song_id)).contains f.song_id = true := by
        rw [← hid]
        exact List.elem_eq_true_of_mem hdel
      rw [hcont] at hfkeep
      exact absurd hfkeep (by simp)
    exact ⟨s, List.mem_filter.mpr ⟨hs', by rw [hkeep]; rfl⟩, hid⟩
  · intro f hf
    simp only [delete_unfingerprinted] at hf ⊢
    rw [List.mem_filter] at hf
    obtain ⟨hfmem, hfkeep⟩ := hf
    obtain ⟨s, hs', hid⟩ := h f hfmem
    have hkeep : (s.fingerprinted == 0) = false := by
      by_contra hcon
      rw [Bool.not_eq_false] at hcon
      have hdel : s.song_id ∈ (st.songs.filter (fun t => t.fingerprinted == 0)).map
          (fun t => t.song_id) :=
        List.mem_map_of_mem _ (List.mem_filter.mpr ⟨hs', hcon⟩)
      have hcont : ((st.songs.filter (fun t => t.fingerprinted == 0)).map
          (fun t => t.song_id)).contains f.song_id = true := by
        rw [← hid]
        exact List.elem_eq_true_of_mem hdel
      rw [hcont] at hfkeep
      exact absurd hfkeep (by simp)
    exact ⟨s, List.mem_filter.mpr ⟨hs', by rw [hkeep]; rfl⟩, hid⟩

/-- Witness for C9 on the example store: insert song 5, insert a
fingerprint for song 1, update song 1, delete song 2, delete the
unfingerprinted songs. -/
theorem c9_witness :
    fingerprintsSchema.foreignKeys = [(["song_id"], "songs", FkAction.cascade)] ∧
    noOrphans exDBins ∧ noOrphans exDB' ∧
    noOrphans (update_song_fingerprinted exDB 1) ∧
    noOrphans (delete_songs exDB [2]) ∧
    noOrphans (delete_unfingerprinted exDB) :=
  c9_referential_integrity exDB exDBins exDB' (by decide) 5 1 "songC" "CC" 0 none
    [("bb", 3)] [2] (by decide) (by decide)

/-- Splitting a filter over a disjunction of mutually exclusive predicates
into the concatenation of the two filters, up to permutation. -/
theorem filter_or_perm {α : Type} (p q : α → Bool) :
    ∀ (l : List α), (∀ x ∈ l, ¬(p x = true ∧ q x = true)) →
      (l.filter (fun x => p x || q x)).Perm (l.filter p ++ l.filter q) := by
  intro l
  induction l with
  | nil => intro _; simp
  | cons a l ih =>
      intro hpq
      have hrest := ih (fun x hx => hpq x (List.mem_cons_of_mem a hx))
      by_cases hp : p a = true
      · have hq : q a = false := by
          rcases Bool.eq_false_or_eq_true (q a) with hq | hq
          · exact absurd ⟨hp, hq⟩ (hpq a (List.mem_cons_self a l))
          · exact hq
        simp only [List.filter_cons, hp, hq, Bool.true_or, if_true]
        simpa using hrest.cons a
      · have hp' : p a = false := Bool.not_eq_true _ ▸ hp
        by_cases hq : q a = true
        · simp only [List.filter_cons, hp', hq, Bool.false_or, if_true]
          refine (hrest.cons a).trans ?_
          exact (List.perm_middle).symm
        · have hq' : q a = false := Bool.not_eq_true _ ▸ hq
          simp only [List.filter_cons, hp', hq', Bool.false_or]
          simpa using hrest

/-- Concatenating the `SELECT_MULTIPLE` results of pairwise-disjoint hash
chunks is a permutation of the single lookup over all the hashes. -/
theorem select_multiple_chunks_perm (st : DBState) :
    ∀ (chunks : List (List String)),
      chunks.Pairwise (fun a b => ∀ x ∈ a, x ∉ b) →
      ((chunks.map (fun c => select_multiple st c)).flatten).Perm
        (select_multiple st chunks.flatten) := by
  intro chunks
  induction chunks with
  | nil => intro _; simp [select_multiple]
  | cons c rest ih =>
      intro hpw
      rw [List.pairwise_cons] at hpw
      obtain ⟨hdisj, hrest⟩ := hpw
      have hperm := ih hrest
      simp only [List.map_cons, List.flatten_cons]
      unfold select_multiple at hperm ⊢
      have hsplit : (st.fingerprints.filter
          (fun f => decide (f.hash ∈ (c :: rest).flatten))).Perm
          (st.fingerprints.filter (fun f => decide (f.hash ∈ c)) ++
           st.fingerprints.filter (fun f => decide (f.hash ∈ rest.flatten))) := by
        have hcond : ∀ f : FingerprintRow,
            (decide (f.hash ∈ (c :: rest).flatten) : Bool) =
              (decide (f.hash ∈ c) || decide (f.hash ∈ rest.flatten)) := by
          intro f
          simp [List.flatten_cons, List.mem_append]
        rw [List.filter_congr (fun f _ => hcond f)]
        apply filter_or_perm
        intro f _ ⟨hfc, hfr⟩
        rw [decide_eq_true_iff] at hfc hfr
        obtain ⟨b, hb, hfb⟩ := List.mem_flatten.mp hfr
        exact hdisj b hb f.hash hfc hfb
      refine (List.Perm.append_left _ hperm).trans ?_
      rw [← List.map_append]
      exact (hsplit.map (fun f => (f.hash, f.song_id, f.offset))).symm

/-- C4: query completeness under chunking.  For every stored fingerprint
table and every partition of a query hash set into pairwise-disjoint
chunks, the concatenation of the per-chunk `SELECT_MULTIPLE` result rows
is a permutation of — hence has exactly the same rows as — the single
unchunked lookup over the whole hash set. -/
theorem c4_chunked_query_completeness (st : DBState) (chunks : List (List String))
    (hd : chunks.Pairwise (fun a b => ∀ x ∈ a, x ∉ b)) :
    ((chunks.map (fun c => select_multiple st c)).flatten).Perm
      (select_multiple st chunks.flatten) :=
  select_multiple_chunks_perm st chunks hd

/-- Witness for C4: the example store queried in two disjoint chunks. -/
theorem c4_witness :
    (([["aa"], ["bb", "cc"]].map (fun c => select_multiple exDB' c)).flatten).Perm
      (select_multiple exDB' [["aa"], ["bb", "cc"]].flatten) :=
  c4_chunked_query_completeness exDB' [["aa"], ["bb", "cc"]] (by decide)
